import Mathlib

/-!
Shallow embedding of `extract_refs.py` (ACL reference extractor).

The program has two components relevant to the claims:

* `extract_acl_references` — the layout-driven reference-boundary parser
  (source lines 107–195): given the ordered list of positioned lines
  (page, column, y, x, stripped text) and the per-(page, column) minimum-x
  baseline map, it classifies each line as a new-reference start or a
  continuation and assembles the list of reference strings.
* `references_dict` — the field extractor (source lines 198–248): regex
  splitting of each reference string into authors/year/title/venue/doi,
  capped at the first 20 references.

Numeric positions are embedded as `Int` (the Python code uses floats, but
every claim is about exact order/arithmetic facts: minima, differences and
tolerance comparisons, which are float-exact on the inputs concerned).
Fallible Python operations (`old_text[-1]` on a possibly-empty string,
`re.search(...).group(...)` on a possibly-failed match) are embedded as
`Option`/`Except` so that the crash is an explicit `none`/`error` value.
-/

namespace AclRefs

/-! ### Character classes and Python string primitives -/

/-- Python `\s` on ASCII: space, tab, newline, carriage return, vertical tab,
form feed. -/
def isWs (c : Char) : Bool :=
  c == ' ' || c == '\t' || c == '\n' || c == '\r' || c == '\x0b' || c == '\x0c'

/-- Regex class `[A-Z]`. -/
def isUpperAZ (c : Char) : Bool := 'A' ≤ c && c ≤ 'Z'

/-- Regex class `[a-z]`. -/
def isLowerAZ (c : Char) : Bool := 'a' ≤ c && c ≤ 'z'

/-- Drop characters satisfying `p` from both ends of a character list. -/
def stripBoth (p : Char → Bool) (cs : List Char) : List Char :=
  ((cs.dropWhile p).reverse.dropWhile p).reverse

/-- Python `str.strip()`: remove leading and trailing whitespace. -/
def pyStrip (s : String) : String := ⟨stripBoth isWs s.data⟩

/-- Python `str.strip('-')` (source lines 173/178/180/182): remove all
leading and trailing hyphen characters. -/
def stripHyphens (s : String) : String := ⟨stripBoth (· == '-') s.data⟩

/-- Python `str.strip('.')` (source line 222): remove all leading and
trailing period characters. -/
def stripDots (s : String) : String := ⟨stripBoth (· == '.') s.data⟩

/-- Python `str.isnumeric()` (source line 167), restricted to ASCII digit
strings: non-empty and all characters are digits. -/
def isNumericStr (s : String) : Bool :=
  !s.data.isEmpty && s.data.all (fun c => c.isDigit)

/-- Substring containment on character lists. -/
def listContainsSub (hay pat : List Char) : Bool :=
  match hay with
  | [] => pat.isEmpty
  | c :: rest => pat.isPrefixOf (c :: rest) || listContainsSub rest pat

/-- Source line 121: `re.search(r'(References|REFERENCES|Bibliography)', text)`
— the text contains one of the three heading literals as a substring. -/
def containsHeading (s : String) : Bool :=
  listContainsSub s.data "References".data || listContainsSub s.data "REFERENCES".data ||
    listContainsSub s.data "Bibliography".data

/-- Source line 142: `re.match(r'^\n*(?:A\s+[A-Z])', text)` — after any
leading newlines, a capital `A`, then at least one whitespace character,
then a capital letter.  (Backtracking cannot shorten the whitespace run:
`[A-Z]` matches no whitespace character, so the maximal run is the only
candidate split.) -/
def matchAppendix (s : String) : Bool :=
  match s.data.dropWhile (· == '\n') with
  | 'A' :: rest =>
    (match rest with
     | w :: _ => isWs w
     | [] => false) &&
    (match rest.dropWhile isWs with
     | c :: _ => isUpperAZ c
     | [] => false)
  | _ => false

/-! ### Data model of the boundary parser -/

/-- One entry of `all_lines` (source line 80): `(page_num, column, y, x, text)`
with `text` already stripped and non-empty by construction (source line 79). -/
structure Line where
  page : Nat
  column : Nat
  yPos : Int
  xPos : Int
  text : String
deriving DecidableEq

/-- The mutable state of the parse loop (source lines 109–117 and 95):
`references`, `current_ref`, `in_references`, `prev_was_A`, `page_list`,
and `old_text` (set to `''` by the quirky assignment inside the baseline
collection loop, source line 95, before the parse loop runs).  The debug-only
counter `ref_count` mirrors `references.length` and is not modelled. -/
structure PState where
  references : List String
  current_ref : String
  in_references : Bool
  prev_was_A : Bool
  page_list : List Nat
  old_text : String
deriving DecidableEq

/-! ### Baseline map (source lines 89–100) -/

/-- The x-positions collected for key `(p, c)` by the loop at source
lines 92–94, in list order. -/
def keyXs (lines : List Line) (p c : Nat) : List Int :=
  (lines.filter (fun l => l.page == p && l.column == c)).map (fun l => l.xPos)

/-- Python `min(list)` (source line 100): `none` on the empty list (the key
is then absent from the dictionary), else the left fold of binary `min`. -/
def pyMin : List Int → Option Int
  | [] => none
  | x :: xs => some (xs.foldl min x)

/-- `min_x_map` (source lines 98–100) as a function: the minimum x-position
for `(p, c)`, or `none` when no line has that key. -/
def minXMap (lines : List Line) (p c : Nat) : Option Int :=
  pyMin (keyXs lines p c)

/-! ### Indentation classification (source lines 151–159) -/

/-- The tolerance chosen at source lines 155–158: 3 for column 0, 15 for
column 1 (columns are always 0 or 1 by construction, source line 71). -/
def tolFor (column : Nat) : Int := if column == 0 then 3 else 15

/-- Source line 159: `is_new_ref = abs(x_diff) <= tolerance` where
`x_diff = x_pos - min_x`. -/
def isNewRef (column : Nat) (xPos minX : Int) : Bool :=
  decide (|xPos - minX| ≤ tolFor column)

/-- The classification of a line inside the parse loop, including the
baseline lookup with its `x_pos` default (source line 153:
`min_x = min_x_map.get(key, x_pos)`). -/
def classifyLine (minX : Nat → Nat → Option Int) (l : Line) : Bool :=
  isNewRef l.column l.xPos ((minX l.page l.column).getD l.xPos)

/-! ### The parse loop (source lines 119–185) -/

/-- One run of the `for` loop over the remaining lines.  Returns `none`
exactly when the Python code would raise `IndexError` at `old_text[-1]`
(source line 177); returns the final state otherwise (either end of list
or a `break`). -/
def processLines (minX : Nat → Nat → Option Int) :
    List Line → PState → Option PState
  | [], st => some st
  | l :: rest, st =>
    if !st.in_references then
      -- source lines 120–128
      if containsHeading l.text then
        processLines minX rest { st with in_references := true }
      else
        processLines minX rest st
    else if pyStrip l.text == "A" then
      -- source lines 131–135
      processLines minX rest { st with prev_was_A := true }
    else if st.prev_was_A then
      -- source lines 137–140: break
      some st
    else if matchAppendix l.text then
      -- source lines 142–147
      if st.page_list.contains l.page then
        processLines minX rest st
      else
        some st
    else
      -- source line 149
      let st1 : PState := { st with page_list := st.page_list ++ [l.page] }
      if classifyLine minX l then
        -- source lines 165–173
        if isNumericStr l.text then
          processLines minX rest st1
        else
          let st2 : PState :=
            if st1.current_ref ≠ "" then
              { st1 with references := st1.references ++ [pyStrip st1.current_ref] }
            else st1
          processLines minX rest
            { st2 with current_ref := stripHyphens l.text,
                       prev_was_A := false, old_text := l.text }
      else
        -- source lines 174–185
        if st1.current_ref ≠ "" then
          match st1.old_text.data.getLast? with
          | none => none
          | some c =>
            let joined :=
              if c == '-' then st1.current_ref ++ stripHyphens l.text
              else st1.current_ref ++ " " ++ stripHyphens l.text
            processLines minX rest
              { st1 with current_ref := joined,
                         prev_was_A := false, old_text := l.text }
        else
          processLines minX rest
            { st1 with current_ref := stripHyphens l.text,
                       prev_was_A := false, old_text := l.text }

/-- The state at source line 119: everything empty/false, `old_text = ''`. -/
def initState : PState :=
  { references := [], current_ref := "", in_references := false,
    prev_was_A := false, page_list := [], old_text := "" }

/-- Source lines 187–189: flush a non-empty in-progress accumulator. -/
def finishState (st : PState) : List String :=
  if st.current_ref ≠ "" then st.references ++ [pyStrip st.current_ref]
  else st.references

/-- The boundary parser on an already-extracted, already-sorted line list
(`all_lines` after source line 83): builds the baseline map, runs the parse
loop, flushes the last reference.  `none` models the `IndexError` crash. -/
def extract_acl_references (lines : List Line) : Option (List String) :=
  (processLines (minXMap lines) lines initState).map finishState

/-- The parse loop followed by the final flush, from an arbitrary state. -/
def runOut (minX : Nat → Nat → Option Int) (lines : List Line) (st : PState) :
    Option (List String) :=
  (processLines minX lines st).map finishState

/-! ### Field extractor (source lines 198–248)

The three regexes of `references_dict` are hand-rolled as character-list
scanners with the backtracking semantics of `re.search` (leftmost match,
lazy groups try shortest first, alternatives in written order, greedy
single-class runs maximal — maximal is the only viable split wherever the
following pattern piece cannot match a character of the run's class). -/

/-- Try `\.\s((?:19|20)\d{2})\.\s(.*)` at the current position
(the part of `pattern_1`, source line 214, after the lazy group).
Returns `(year, group3)`; `group3` is the greedy `.*`, i.e. everything up
to the first newline. -/
def p1Tail (cs : List Char) : Option (List Char × List Char) :=
  match cs with
  | '.' :: w :: d1 :: d2 :: d3 :: d4 :: '.' :: w2 :: tail =>
    if isWs w && ((d1 == '1' && d2 == '9') || (d1 == '2' && d2 == '0')) &&
        d3.isDigit && d4.isDigit && isWs w2 then
      some ([d1, d2, d3, d4], tail.takeWhile (· ≠ '\n'))
    else none
  | _ => none

/-- The lazy group `(^.+?)` of `pattern_1`: grow the authors prefix one
(non-newline) character at a time, trying `p1Tail` after each step. -/
def p1Loop (acc : List Char) : List Char → Option (String × String × String)
  | [] => none
  | c :: rest =>
    if c == '\n' then none
    else
      match p1Tail rest with
      | some (y, g3) => some (⟨(c :: acc).reverse⟩, ⟨y⟩, ⟨g3⟩)
      | none => p1Loop (c :: acc) rest

/-- Source line 214: `re.search('(^.+?)\.\s((?:19|20)\d{2})\.\s(.*)', ref)` —
`none` models a failed match (the subsequent `.group` call then raises). -/
def matchP1 (s : String) : Option (String × String × String) :=
  p1Loop [] s.data

/-- Source line 220: `re.search(r'^(.*?\.)(\s+.*)?$', other)` — the lazy
group is the shortest prefix ending in a period whose remainder is empty
(group 2 absent) or consists of a whitespace run followed by newline-free
text (group 2 = the whole remainder). -/
def p2Loop (acc : List Char) : List Char → Option (String × Option String)
  | [] => none
  | c :: rest =>
    if c == '\n' then none
    else if c == '.' then
      match rest with
      | [] => some (⟨(c :: acc).reverse⟩, none)
      | r :: _ =>
        if isWs r && (rest.dropWhile isWs).all (· ≠ '\n') then
          some (⟨(c :: acc).reverse⟩, some ⟨rest⟩)
        else p2Loop (c :: acc) rest
    else p2Loop (c :: acc) rest

/-- Source lines 220–221 as a function of `other`. -/
def matchP2 (s : String) : Option (String × Option String) :=
  p2Loop [] s.data

/-- The first lookahead alternative `[A-Z][a-z]+,\s+[A-Z]` of `pattern_3`
(source lines 226–228). -/
def look1 (cs : List Char) : Bool :=
  match cs with
  | u :: rest =>
    isUpperAZ u &&
    !(rest.takeWhile isLowerAZ).isEmpty &&
    (match rest.dropWhile isLowerAZ with
     | ',' :: r2 =>
       (match r2 with
        | w :: _ => isWs w
        | [] => false) &&
       (match r2.dropWhile isWs with
        | c :: _ => isUpperAZ c
        | [] => false)
     | _ => false)
  | [] => false

/-- The lookahead `(?=[A-Z][a-z]+,\s+[A-Z]|Virtual|Online|pages)`. -/
def p3Lookahead (cs : List Char) : Bool :=
  look1 cs || "Virtual".data.isPrefixOf cs || "Online".data.isPrefixOf cs ||
    "pages".data.isPrefixOf cs

/-- For `(abs/.+)?\.`: the greedy `.+\.` takes the last period of the
newline-free segment that has at least one character before it; returns the
captured `.+` part. -/
def lastDotSplit (body : List Char) : Option (List Char) :=
  let seg := body.takeWhile (· ≠ '\n')
  match (seg.reverse.dropWhile (· ≠ '.')) with
  | [] => none
  | _ :: preRev => if preRev.isEmpty then none else some preRev.reverse

/-- Does one of the three terminating alternatives of `pattern_3` match at
`cs`?  Returns `some doi?` on a match (`doi?` is group 2 of `pattern_3`):
1. `,\s+(?=...)`, 2. `,\s(abs/.+)?\.`, 3. `\.$` — tried in written order. -/
def p3Alt (cs : List Char) : Option (Option String) :=
  match cs with
  | ',' :: rest =>
    if (match rest with
        | w :: _ => isWs w
        | [] => false) && p3Lookahead (rest.dropWhile isWs) then
      some none
    else
      (match rest with
       | w :: r2 =>
         if isWs w then
           if "abs/".data.isPrefixOf r2 then
             match lastDotSplit (r2.drop 4) with
             | some g2tail => some (some ⟨'a' :: 'b' :: 's' :: '/' :: g2tail⟩)
             | none => none
           else
             match r2 with
             | '.' :: _ => some none
             | _ => none
         else none
       | [] => none)
  | ['.'] => some none
  | _ => none

/-- The lazy group `(.+?)` of `pattern_3` followed by the alternation:
grow group 1 one (non-newline) character at a time, trying `p3Alt` after
each step. -/
def p3Lazy (g1rev : List Char) : List Char → Option (String × Option String)
  | [] => none
  | c :: rest =>
    if c == '\n' then none
    else
      match p3Alt rest with
      | some doi => some (⟨(c :: g1rev).reverse⟩, doi)
      | none => p3Lazy (c :: g1rev) rest

/-- Consume a literal followed by a maximal `\s+` run (at least one
whitespace character). -/
def stripLitWs (lit : List Char) (cs : List Char) : Option (List Char) :=
  if lit.isPrefixOf cs then
    match cs.drop lit.length with
    | c :: rest =>
      if isWs c then some (rest.dropWhile isWs) else none
    | [] => none
  else none

/-- The optional prefix `(?:In\s+)?`. -/
def stripIn (cs : List Char) : Option (List Char) :=
  stripLitWs "In".data cs

/-- The optional prefix `(?:Proceedings\s+of\s+)?`. -/
def stripProcOf (cs : List Char) : Option (List Char) :=
  match stripLitWs "Proceedings".data cs with
  | some r => stripLitWs "of".data r
  | none => none

/-- The optional prefix `(?:the\s+)?`. -/
def stripThe (cs : List Char) : Option (List Char) :=
  stripLitWs "the".data cs

/-- Expand an optional prefix: the with-branch is tried before the
without-branch, preserving backtracking priority order. -/
def optStep (f : List Char → Option (List Char)) (xs : List (List Char)) :
    List (List Char) :=
  xs.flatMap (fun cs =>
    match f cs with
    | some r => [r, cs]
    | none => [cs])

/-- Try `pattern_3` anchored at one start position: the three optional
prefixes (each with-branch before without-branch, earlier prefixes more
significant), then the lazy group and the alternation. -/
def p3AtStart (cs : List Char) : Option (String × Option String) :=
  (optStep stripThe (optStep stripProcOf (optStep stripIn [cs]))).findSome?
    (fun start => p3Lazy [] start)

/-- Source lines 226–229: `re.search(pattern_3, venue_det)` — leftmost
start position wins. -/
def p3Search : List Char → Option (String × Option String)
  | [] => none
  | c :: rest =>
    match p3AtStart (c :: rest) with
    | some r => some r
    | none => p3Search rest

/-- The venue/DOI regex of source lines 226–229 as a function. -/
def matchP3 (s : String) : Option (String × Option String) :=
  p3Search s.data

/-- One row of the output table (source lines 216–241). -/
structure StructuredRef where
  authors : String
  year : String
  title : String
  venue : String
  doi : String
deriving DecidableEq

/-- The per-reference body of the loop at source lines 211–241: `error`
models the uncaught `AttributeError` raised by `.group` on a failed match
(`pattern_1` at line 216, `pattern_2` at line 222, `pattern_3` at
line 231). -/
def processRef (ref : String) : Except String StructuredRef :=
  match matchP1 ref with
  | none => .error "pattern_1 did not match"
  | some (authors, year, other) =>
    match matchP2 other with
    | none => .error "pattern_2 did not match"
    | some (g1, g2opt) =>
      let title := stripDots g1
      match g2opt with
      | none => .ok ⟨authors, year, title, "", ""⟩
      | some g2 =>
        match matchP3 (pyStrip g2) with
        | none => .error "pattern_3 did not match"
        | some (venue, doi) =>
          .ok ⟨authors, year, title, venue, doi.getD ""⟩

/-- The loop of source lines 211–245 with the running `count` and the
`if count == 20: break` cap (the 20th reference is fully processed, then
the loop stops; later references are never examined). -/
def refsLoop (count : Nat) : List String → Except String (List StructuredRef)
  | [] => .ok []
  | r :: rest =>
    match processRef r with
    | .error e => .error e
    | .ok row =>
      if count + 1 == 20 then .ok [row]
      else
        match refsLoop (count + 1) rest with
        | .error e => .error e
        | .ok rows => .ok (row :: rows)

/-- Source lines 198–248: the structured table (as the ordered list of its
rows) built from the reference strings, or the propagated parse error. -/
def references_dict (refs : List String) : Except String (List StructuredRef) :=
  refsLoop 0 refs

/-! ### Helper lemmas about the minimum fold -/

theorem foldl_min_le_init (xs : List Int) (a : Int) : xs.foldl min a ≤ a := by
  induction xs generalizing a with
  | nil => exact le_refl a
  | cons x xs ih => exact le_trans (ih (min a x)) (min_le_left a x)

theorem foldl_min_le_mem {xs : List Int} {x : Int} (hx : x ∈ xs) (a : Int) :
    xs.foldl min a ≤ x := by
  induction xs generalizing a with
  | nil => cases hx
  | cons y ys ih =>
    rcases List.mem_cons.mp hx with h | h
    · subst h
      exact le_trans (foldl_min_le_init ys (min a x)) (min_le_right a x)
    · exact ih h (min a y)

theorem foldl_min_mem_or (xs : List Int) (a : Int) :
    xs.foldl min a = a ∨ xs.foldl min a ∈ xs := by
  induction xs generalizing a with
  | nil => exact Or.inl rfl
  | cons x xs ih =>
    rw [List.foldl_cons]
    rcases ih (min a x) with h | h
    · rw [h]
      rcases min_choice a x with h2 | h2
      · exact Or.inl h2
      · refine Or.inr ?_
        rw [h2]
        exact List.mem_cons_self x xs
    · exact Or.inr (List.mem_cons_of_mem x h)

theorem pyMin_mem {xs : List Int} {m : Int} (h : pyMin xs = some m) : m ∈ xs := by
  match xs with
  | [] => cases h
  | x :: ys =>
    have hm : ys.foldl min x = m := by
      simpa [pyMin] using h
    rcases foldl_min_mem_or ys x with h2 | h2
    · rw [← hm, h2]
      exact List.mem_cons_self x ys
    · rw [← hm]
      exact List.mem_cons_of_mem x h2

theorem pyMin_le {xs : List Int} {m x : Int} (h : pyMin xs = some m) (hx : x ∈ xs) :
    m ≤ x := by
  match xs with
  | [] => cases h
  | y :: ys =>
    have hm : ys.foldl min y = m := by
      simpa [pyMin] using h
    rcases List.mem_cons.mp hx with h2 | h2
    · exact hm ▸ h2 ▸ foldl_min_le_init ys y
    · exact hm ▸ foldl_min_le_mem h2 y

theorem pyMin_isSome {xs : List Int} (h : xs ≠ []) : ∃ m, pyMin xs = some m := by
  match xs with
  | [] => exact absurd rfl h
  | x :: ys => exact ⟨ys.foldl min x, rfl⟩

theorem pyMin_perm {xs ys : List Int} (h : xs.Perm ys) : pyMin xs = pyMin ys := by
  match xxs : xs, yys : ys with
  | [], ys =>
    have : ys = [] := (h.symm).eq_nil
    rw [this]
  | x :: xs2, [] => exact absurd h.eq_nil (by simp)
  | x :: xs2, y :: ys2 =>
    obtain ⟨m1, hm1⟩ := @pyMin_isSome (x :: xs2) (by simp)
    obtain ⟨m2, hm2⟩ := @pyMin_isSome (y :: ys2) (by simp)
    rw [hm1, hm2]
    have h12 : m1 ≤ m2 := pyMin_le hm1 (h.mem_iff.mpr (pyMin_mem hm2))
    have h21 : m2 ≤ m1 := pyMin_le hm2 (h.mem_iff.mp (pyMin_mem hm1))
    exact congrArg some (le_antisymm h12 h21)

/-! ### Claims C1, C2, C5 — baseline and indentation classification -/

/-- C1: for a line whose (page, column) key has a baseline entry, the
classification is new-reference-start iff the absolute indentation delta is
within the tolerance (3 for column 0, 15 for column 1), and a line at
horizontalPos = baseline + tolerance + 1 is classified as a continuation. -/
theorem C1_classification (lines : List Line) (l : Line) (b : Int)
    (hb : minXMap lines l.page l.column = some b) :
    (classifyLine (minXMap lines) l = true ↔ |l.xPos - b| ≤ tolFor l.column) ∧
    tolFor 0 = 3 ∧ tolFor 1 = 15 ∧
    (l.xPos = b + tolFor l.column + 1 → classifyLine (minXMap lines) l = false) := by
  have htol : 0 < tolFor l.column := by
    unfold tolFor
    split <;> norm_num
  refine ⟨?_, rfl, rfl, ?_⟩
  · unfold classifyLine isNewRef
    rw [hb]
    simp [Option.getD]
  · intro hx
    unfold classifyLine isNewRef
    rw [hb]
    simp only [Option.getD_some, decide_eq_false_iff_not, not_le]
    have : l.xPos - b = tolFor l.column + 1 := by omega
    rw [this, abs_of_nonneg (by omega)]
    omega

/-- Witness for C1 at a concrete input: one line at x = 80 on a page whose
column-0 baseline is 72 (so the entry exists), with delta 8 > 3. -/
theorem C1_classification_witness :
    (classifyLine (minXMap [⟨0, 0, 0, 72, "r"⟩, ⟨0, 0, 1, 80, "c"⟩])
        ⟨0, 0, 1, 80, "c"⟩ = true ↔ |(80 : Int) - 72| ≤ tolFor 0) ∧
    tolFor 0 = 3 ∧ tolFor 1 = 15 ∧
    ((80 : Int) = 72 + tolFor 0 + 1 → classifyLine
        (minXMap [⟨0, 0, 0, 72, "r"⟩, ⟨0, 0, 1, 80, "c"⟩]) ⟨0, 0, 1, 80, "c"⟩ = false) :=
  C1_classification [⟨0, 0, 0, 72, "r"⟩, ⟨0, 0, 1, 80, "c"⟩] ⟨0, 0, 1, 80, "c"⟩ 72
    (by decide)

/-- C2: the computed baseline for a (page, column) key is the minimum of the
horizontal positions of the lines with that key, and it is invariant under
any permutation of the line list. -/
theorem C2_baseline_min (lines : List Line) (p c : Nat) :
    (∀ m, minXMap lines p c = some m →
        m ∈ keyXs lines p c ∧ ∀ x ∈ keyXs lines p c, m ≤ x) ∧
    (∀ lines2 : List Line, lines.Perm lines2 →
        minXMap lines p c = minXMap lines2 p c) := by
  constructor
  · intro m hm
    exact ⟨pyMin_mem hm, fun x hx => pyMin_le hm hx⟩
  · intro lines2 hperm
    unfold minXMap
    exact pyMin_perm ((hperm.filter _).map _)

/-- Witness for C2 at a concrete input: two column-0 lines at x = 80 and
x = 72; the baseline is 72 and is unchanged when the two lines are swapped. -/
theorem C2_baseline_min_witness :
    ((72 : Int) ∈ keyXs [⟨0, 0, 0, 80, "a"⟩, ⟨0, 0, 1, 72, "b"⟩] 0 0 ∧
      ∀ x ∈ keyXs [⟨0, 0, 0, 80, "a"⟩, ⟨0, 0, 1, 72, "b"⟩] 0 0, (72 : Int) ≤ x) ∧
    minXMap [⟨0, 0, 0, 80, "a"⟩, ⟨0, 0, 1, 72, "b"⟩] 0 0 =
      minXMap [⟨0, 0, 1, 72, "b"⟩, ⟨0, 0, 0, 80, "a"⟩] 0 0 :=
  ⟨(C2_baseline_min [⟨0, 0, 0, 80, "a"⟩, ⟨0, 0, 1, 72, "b"⟩] 0 0).1 72 (by decide),
   (C2_baseline_min [⟨0, 0, 0, 80, "a"⟩, ⟨0, 0, 1, 72, "b"⟩] 0 0).2
     [⟨0, 0, 1, 72, "b"⟩, ⟨0, 0, 0, 80, "a"⟩] (List.Perm.swap _ _ _)⟩

/-- C5 counterexample: the claim says a column-0 line at x = baseline + 1
(and any offset 1..3) is classified as a continuation, and likewise
baseline + 1..15 in column 1; but the code classifies offsets within the
tolerance as new-reference starts, so at baseline 72 and x = 73 the
classification is new-reference-start (`is_new_ref = true`), not
continuation, in both columns. -/
theorem C5_counterexample :
    ¬(isNewRef 0 (72 + 1) 72 = false) ∧ ¬(isNewRef 1 (72 + 1) 72 = false) := by
  decide

/-- C5 amended: offsets d = 0..tolerance from the baseline are classified as
new-reference starts (tolerance 3 in column 0, 15 in column 1), and the
classification flips to continuation at d = tolerance + 1. -/
theorem C5_amended (b : Int) (d : Nat) :
    (d ≤ 3 → isNewRef 0 (b + d) b = true) ∧
    (d ≤ 15 → isNewRef 1 (b + d) b = true) ∧
    isNewRef 0 (b + 3 + 1) b = false ∧
    isNewRef 1 (b + 15 + 1) b = false := by
  have hd : b + (d : Int) - b = (d : Int) := by ring
  refine ⟨fun h3 => ?_, fun h15 => ?_, ?_, ?_⟩
  · unfold isNewRef tolFor
    rw [hd, abs_of_nonneg (by positivity)]
    simp only [decide_eq_true_eq]
    norm_num
    omega
  · unfold isNewRef tolFor
    rw [hd, abs_of_nonneg (by positivity)]
    simp only [decide_eq_true_eq]
    norm_num
    omega
  · unfold isNewRef tolFor
    have : b + 3 + 1 - b = (4 : Int) := by ring
    rw [this]
    decide
  · unfold isNewRef tolFor
    have : b + 15 + 1 - b = (16 : Int) := by ring
    rw [this]
    decide

/-- Witness for the amended C5 at b = 72, d = 2. -/
theorem C5_amended_witness :
    ((2 : Nat) ≤ 3 → isNewRef 0 (72 + (2 : Nat)) 72 = true) ∧
    ((2 : Nat) ≤ 15 → isNewRef 1 (72 + (2 : Nat)) 72 = true) ∧
    isNewRef 0 (72 + 3 + 1) 72 = false ∧
    isNewRef 1 (72 + 15 + 1) 72 = false :=
  C5_amended 72 2

/-! ### Claims C3, C6, C7 — single-step behaviour of the parse loop -/

/-- Step equation for the continuation branch with a non-empty accumulator
(source lines 174–185). -/
theorem step_cont_join (minX : Nat → Nat → Option Int) (st : PState) (l : Line)
    (rest : List Line) (c : Char)
    (h1 : st.in_references = true) (h2 : st.prev_was_A = false)
    (h3 : pyStrip l.text ≠ "A") (h4 : matchAppendix l.text = false)
    (h5 : classifyLine minX l = false) (h6 : st.current_ref ≠ "")
    (h7 : st.old_text.data.getLast? = some c) :
    processLines minX (l :: rest) st =
      processLines minX rest
        { st with
            current_ref :=
              if c == '-' then st.current_ref ++ stripHyphens l.text
              else st.current_ref ++ " " ++ stripHyphens l.text,
            page_list := st.page_list ++ [l.page],
            prev_was_A := false, old_text := l.text } := by
  simp only [processLines, h1, h2, h4, h5, Bool.not_true, Bool.false_eq_true,
    if_false, beq_iff_eq, h3, ite_false]
  rw [if_pos h6, h7]

/-- C3: a continuation line joining a non-empty accumulator is concatenated
with no separator when the previous appended/started line's raw text
(`old_text`) ended in a literal hyphen (whose own trailing hyphen was
already stripped when that text entered the accumulator, so the rejoined
word is hyphen-free), and with exactly one space otherwise; the incoming
text has its leading/trailing hyphens stripped in both cases. -/
theorem C3_hyphen_join (minX : Nat → Nat → Option Int) (st : PState) (l : Line)
    (rest : List Line) (c : Char)
    (h1 : st.in_references = true) (h2 : st.prev_was_A = false)
    (h3 : pyStrip l.text ≠ "A") (h4 : matchAppendix l.text = false)
    (h5 : classifyLine minX l = false) (h6 : st.current_ref ≠ "")
    (h7 : st.old_text.data.getLast? = some c) :
    processLines minX (l :: rest) st =
      processLines minX rest
        { st with
            current_ref :=
              if c == '-' then st.current_ref ++ stripHyphens l.text
              else st.current_ref ++ " " ++ stripHyphens l.text,
            page_list := st.page_list ++ [l.page],
            prev_was_A := false, old_text := l.text } :=
  step_cont_join minX st l rest c h1 h2 h3 h4 h5 h6 h7

/-- Witness for C3: the spec's own example — accumulator "trans" whose
last raw line was "trans-", then continuation line "former", yields
"transformer" with no separator and no hyphen; applying the join theorem
at that input. -/
theorem C3_hyphen_join_witness :
    processLines (fun _ _ => some 0) [⟨0, 0, 1, 10, "former"⟩]
        ⟨[], "trans", true, false, [0], "trans-"⟩ =
      some ⟨[], "transformer", true, false, [0, 0], "former"⟩ := by
  rw [C3_hyphen_join (fun _ _ => some 0) ⟨[], "trans", true, false, [0], "trans-"⟩
    ⟨0, 0, 1, 10, "former"⟩ [] '-' rfl rfl (by decide) (by decide) (by decide)
    (by decide) (by decide)]
  decide

/-- C6 counterexample: in a state whose page list already contains page 0
(the page has contributed an accepted line), the appendix-pattern line
"A Experimental Setup" at the column baseline would, per the claim, be
classified (new-reference start here, since its delta is 0) and accumulated,
making the output ["A Experimental Setup"]; the code instead skips the line
entirely, leaving the state unchanged and the output empty. -/
theorem C6_counterexample :
    runOut (fun _ _ => some 5) [⟨0, 0, 0, 5, "A Experimental Setup"⟩]
        ⟨[], "", true, false, [0], ""⟩ = some [] ∧
    ¬(runOut (fun _ _ => some 5) [⟨0, 0, 0, 5, "A Experimental Setup"⟩]
        ⟨[], "", true, false, [0], ""⟩ = some ["A Experimental Setup"]) := by
  constructor
  · decide
  · decide

/-- C6 amended: when a line matches the appendix-heading pattern but its
page is already in the page list, parsing does not terminate — but the line
is skipped entirely rather than processed: the state (including the pending
appendix flag, necessarily already clear at this point) is untouched and
the line is neither classified nor accumulated. -/
theorem C6_amended (minX : Nat → Nat → Option Int) (st : PState) (l : Line)
    (rest : List Line)
    (h1 : st.in_references = true) (h2 : st.prev_was_A = false)
    (h3 : pyStrip l.text ≠ "A") (h4 : matchAppendix l.text = true)
    (h5 : st.page_list.contains l.page = true) :
    processLines minX (l :: rest) st = processLines minX rest st := by
  simp only [processLines, h1, h2, h4, h5, Bool.not_true, Bool.false_eq_true,
    if_false, beq_iff_eq, h3, ite_false, ite_true]

/-- Witness for the amended C6: the same concrete input as the
counterexample, with one further line after the skipped one, showing the
loop continues with the unchanged state. -/
theorem C6_amended_witness :
    processLines (fun _ _ => some 5)
        [⟨0, 0, 0, 5, "A Experimental Setup"⟩, ⟨0, 0, 1, 5, "Next. 2020. T."⟩]
        ⟨[], "", true, false, [0], ""⟩ =
      processLines (fun _ _ => some 5) [⟨0, 0, 1, 5, "Next. 2020. T."⟩]
        ⟨[], "", true, false, [0], ""⟩ :=
  C6_amended (fun _ _ => some 5) ⟨[], "", true, false, [0], ""⟩
    ⟨0, 0, 0, 5, "A Experimental Setup"⟩ [⟨0, 0, 1, 5, "Next. 2020. T."⟩]
    rfl rfl (by decide) (by decide) (by decide)

/-- C7 counterexample: a purely numeric line ("42") classified as a
new-reference start is skipped, but not without affecting state — the
line's page (0) is appended to the page list (source line 149 runs before
the numeric skip at line 167), so the state after the step differs from the
state before, contradicting "the record of which pages contributed accepted
lines is unchanged". -/
theorem C7_counterexample :
    processLines (fun _ _ => some 5) [⟨0, 0, 0, 5, "42"⟩]
        ⟨[], "", true, false, [], ""⟩ =
      some ⟨[], "", true, false, [0], ""⟩ ∧
    ¬(processLines (fun _ _ => some 5) [⟨0, 0, 0, 5, "42"⟩]
        ⟨[], "", true, false, [], ""⟩ = some ⟨[], "", true, false, [], ""⟩) := by
  constructor
  · decide
  · decide

/-- C7 amended: a purely numeric line classified as a new-reference start is
skipped leaving the accumulator, previous-line record and pending-appendix
flag unchanged, but its page is first appended to the record of contributing
pages; a purely numeric line classified as a continuation is still appended
to the in-progress accumulator (the numeric skip is never consulted on the
continuation path). -/
theorem C7_numeric_lines :
    (∀ (minX : Nat → Nat → Option Int) (st : PState) (l : Line) (rest : List Line),
       st.in_references = true → st.prev_was_A = false →
       pyStrip l.text ≠ "A" → matchAppendix l.text = false →
       classifyLine minX l = true → isNumericStr l.text = true →
       processLines minX (l :: rest) st =
         processLines minX rest { st with page_list := st.page_list ++ [l.page] }) ∧
    (∀ (minX : Nat → Nat → Option Int) (st : PState) (l : Line) (rest : List Line)
       (c : Char),
       st.in_references = true → st.prev_was_A = false →
       pyStrip l.text ≠ "A" → matchAppendix l.text = false →
       classifyLine minX l = false → isNumericStr l.text = true →
       st.current_ref ≠ "" → st.old_text.data.getLast? = some c →
       processLines minX (l :: rest) st =
         processLines minX rest
           { st with
               current_ref :=
                 if c == '-' then st.current_ref ++ stripHyphens l.text
                 else st.current_ref ++ " " ++ stripHyphens l.text,
               page_list := st.page_list ++ [l.page],
               prev_was_A := false, old_text := l.text }) := by
  constructor
  · intro minX st l rest h1 h2 h3 h4 h5 h6
    simp only [processLines, h1, h2, h4, h5, h6, Bool.not_true, Bool.false_eq_true,
      if_false, beq_iff_eq, h3, ite_false, ite_true]
  · intro minX st l rest c h1 h2 h3 h4 h5 h6 h7 h8
    exact step_cont_join minX st l rest c h1 h2 h3 h4 h5 h7 h8

/-- Witness for C7: part 1 at the numeric line "42" on the baseline with
empty page list (the page record grows), and part 2 at a numeric
continuation line "42" appended to the accumulator "A ref" with one space. -/
theorem C7_numeric_lines_witness :
    (processLines (fun _ _ => some 5) [⟨0, 0, 0, 5, "42"⟩]
        ⟨[], "", true, false, [], ""⟩ =
      processLines (fun _ _ => some 5) []
        { (⟨[], "", true, false, [], ""⟩ : PState) with page_list := [] ++ [0] }) ∧
    (processLines (fun _ _ => some 5) [⟨0, 0, 0, 50, "42"⟩]
        ⟨[], "A ref", true, false, [0], "A ref"⟩ =
      processLines (fun _ _ => some 5) []
        { (⟨[], "A ref", true, false, [0], "A ref"⟩ : PState) with
            current_ref :=
              if 'f' == '-' then "A ref" ++ stripHyphens "42"
              else "A ref" ++ " " ++ stripHyphens "42",
            page_list := [0] ++ [0],
            prev_was_A := false, old_text := "42" }) :=
  ⟨C7_numeric_lines.1 (fun _ _ => some 5) ⟨[], "", true, false, [], ""⟩
      ⟨0, 0, 0, 5, "42"⟩ [] rfl rfl (by decide) (by decide) (by decide) (by decide),
   C7_numeric_lines.2 (fun _ _ => some 5) ⟨[], "A ref", true, false, [0], "A ref"⟩
      ⟨0, 0, 0, 50, "42"⟩ [] 'f' rfl rfl (by decide) (by decide) (by decide)
      (by decide) (by decide) (by decide)⟩

/-! ### Claim C4 — appendix "A" termination -/

/-- Once the pending appendix flag is set inside the references section, no
later line can change the references list or the accumulator: any following
line either confirms the appendix (break) or is itself "A" (flag stays set). -/
theorem afterA (minX : Nat → Nat → Option Int) (lines : List Line) (st : PState)
    (h1 : st.in_references = true) (h2 : st.prev_was_A = true) :
    ∃ st2, processLines minX lines st = some st2 ∧
      st2.references = st.references ∧ st2.current_ref = st.current_ref := by
  induction lines generalizing st with
  | nil => exact ⟨st, rfl, rfl, rfl⟩
  | cons l rest ih =>
    by_cases hA : pyStrip l.text = "A"
    · obtain ⟨st2, he, hr, hc⟩ :=
        ih { st with prev_was_A := true } h1 rfl
      refine ⟨st2, ?_, hr, hc⟩
      simpa [processLines, h1, hA] using he
    · refine ⟨st, ?_, rfl, rfl⟩
      simp [processLines, h1, hA, h2]

/-- C4: inside the references section, a line whose trimmed text is exactly
"A" followed by at least one more line makes the parser's output equal to
the references finalized so far plus the flushed non-empty accumulator —
neither the "A" line, the following line, nor anything after them
contributes text to any reference. -/
theorem C4_appendix_termination (minX : Nat → Nat → Option Int) (st : PState)
    (l l2 : Line) (rest : List Line)
    (h1 : st.in_references = true) (hA : pyStrip l.text = "A") :
    runOut minX (l :: l2 :: rest) st = some (finishState st) := by
  have hstep : processLines minX (l :: l2 :: rest) st =
      processLines minX (l2 :: rest) { st with prev_was_A := true } := by
    simp [processLines, h1, hA]
  obtain ⟨st2, he, hr, hc⟩ :=
    afterA minX (l2 :: rest) { st with prev_was_A := true } h1 rfl
  unfold runOut
  rw [hstep, he]
  simp only [Option.map_some', Option.some.injEq, finishState, hr, hc]

/-- Witness for C4: the spec's scenario — state holding one finalized
reference and accumulator "Jones. 2021. B", then lines "A" and
"Experimental Setup"; the output is the finalized reference plus the
flushed accumulator. -/
theorem C4_appendix_termination_witness :
    runOut (fun _ _ => some 5)
        [⟨1, 0, 0, 5, "A"⟩, ⟨1, 0, 1, 5, "Experimental Setup"⟩]
        ⟨["Smith. 2020. A"], "Jones. 2021. B", true, false, [0], "Jones. 2021. B"⟩ =
      some (finishState
        ⟨["Smith. 2020. A"], "Jones. 2021. B", true, false, [0], "Jones. 2021. B"⟩) :=
  C4_appendix_termination (fun _ _ => some 5)
    ⟨["Smith. 2020. A"], "Jones. 2021. B", true, false, [0], "Jones. 2021. B"⟩
    ⟨1, 0, 0, 5, "A"⟩ ⟨1, 0, 1, 5, "Experimental Setup"⟩ [] rfl (by decide)

/-! ### Claim C10 — safety of the last-character access -/

theorem data_ne_nil_of_ne_empty {s : String} (h : s ≠ "") : s.data ≠ [] := by
  intro hd
  apply h
  cases s with
  | mk d =>
    simp only at hd
    subst hd
    rfl

/-- The parse loop never reaches the last-character access with an empty
`old_text`: if every line text is non-empty and the state satisfies the
invariant "non-empty accumulator implies non-empty previous text", the loop
runs to completion (no `IndexError`). -/
theorem processLines_total (minX : Nat → Nat → Option Int) (lines : List Line)
    (st : PState) (hl : ∀ l ∈ lines, l.text ≠ "")
    (hinv : st.current_ref ≠ "" → st.old_text ≠ "") :
    ∃ st2, processLines minX lines st = some st2 := by
  induction lines generalizing st with
  | nil => exact ⟨st, rfl⟩
  | cons l rest ih =>
    have hlt : l.text ≠ "" := hl l (List.mem_cons_self l rest)
    have hrest : ∀ l2 ∈ rest, l2.text ≠ "" :=
      fun l2 h => hl l2 (List.mem_cons_of_mem l h)
    simp only [processLines]
    split
    · split
      · exact ih { st with in_references := true } hrest hinv
      · exact ih st hrest hinv
    · split
      · exact ih { st with prev_was_A := true } hrest hinv
      · split
        · exact ⟨st, rfl⟩
        · split
          · split
            · exact ih st hrest hinv
            · exact ⟨st, rfl⟩
          · split
            · split
              · exact ih _ hrest hinv
              · refine ih _ hrest ?_
                intro _
                exact hlt
            · split
              · rename_i hcur
                have hold : st.old_text ≠ "" := hinv hcur
                have hdata : st.old_text.data ≠ [] := data_ne_nil_of_ne_empty hold
                split
                · rename_i hnone
                  exact absurd (List.getLast?_eq_none_iff.mp hnone) hdata
                · refine ih _ hrest ?_
                  intro _
                  exact hlt
              · refine ih _ hrest ?_
                intro _
                exact hlt

/-- C10: on any line list whose texts are all non-empty (which holds for
`all_lines` by construction, source line 79), the boundary parser never
crashes at the `old_text[-1]` access: whenever the continuation branch with
a non-empty accumulator is reached, the recorded previous-line text is
non-empty, so the whole extraction returns a result. -/
theorem C10_old_text_safe (lines : List Line) (hl : ∀ l ∈ lines, l.text ≠ "") :
    ∃ out, extract_acl_references lines = some out := by
  obtain ⟨st2, he⟩ :=
    processLines_total (minXMap lines) lines initState hl
      (fun hc => absurd rfl hc)
  refine ⟨finishState st2, ?_⟩
  unfold extract_acl_references
  rw [he]
  rfl

/-- Witness for C10: a concrete three-line document (heading, a reference
start, a continuation) on which the parser returns a result. -/
theorem C10_old_text_safe_witness :
    ∃ out, extract_acl_references
        [⟨0, 0, 0, 72, "References"⟩, ⟨0, 0, 1, 72, "Smith. 2020. A very long"⟩,
          ⟨0, 0, 2, 82, "title."⟩] = some out :=
  C10_old_text_safe
    [⟨0, 0, 0, 72, "References"⟩, ⟨0, 0, 1, 72, "Smith. 2020. A very long"⟩,
      ⟨0, 0, 2, 82, "title."⟩] (by decide)

/-! ### Claims C8, C9 — field extractor error propagation and cap -/

theorem processRef_ok_matchP1 {r : String} {row : StructuredRef}
    (h : processRef r = Except.ok row) : matchP1 r ≠ none := by
  intro hn
  rw [processRef, hn] at h
  cases h

/-- If any reference among the first `20 - count` still to be processed has
no `pattern_1` match, the loop propagates an error. -/
theorem refsLoop_error (refs : List String) (count : Nat) (r : String)
    (hr : r ∈ refs.take (20 - count)) (hm : matchP1 r = none) :
    ∃ e, refsLoop count refs = Except.error e := by
  induction refs generalizing count with
  | nil => simp at hr
  | cons r2 rest ih =>
    rcases Nat.eq_zero_or_pos (20 - count) with h0 | hpos
    · rw [h0] at hr
      simp at hr
    · obtain ⟨k, hk⟩ : ∃ k, 20 - count = k + 1 :=
        ⟨20 - count - 1, by omega⟩
      rw [hk, List.take_succ_cons] at hr
      cases hp : processRef r2 with
      | error e =>
        refine ⟨e, ?_⟩
        simp [refsLoop, hp]
      | ok row =>
        have hne : r ≠ r2 := by
          intro heq
          exact processRef_ok_matchP1 hp (heq ▸ hm)
        have hr2 : r ∈ rest.take (20 - (count + 1)) := by
          have : 20 - (count + 1) = k := by omega
          rw [this]
          rcases List.mem_cons.mp hr with h | h
          · exact absurd h hne
          · exact h
        have hcap : ¬(count = 19) := by
          by_contra hc
          have h0 : 20 - (count + 1) = 0 := by omega
          rw [h0] at hr2
          simp at hr2
        obtain ⟨e, he⟩ := ih (count + 1) hr2
        refine ⟨e, ?_⟩
        simp [refsLoop, hp, hcap, he]

/-- C8: whenever some reference string among the first 20 (the ones the
capped loop examines) has no "authors. year. rest" match — no 4-digit year
in 1900–2099 preceded by a period and a whitespace in the `pattern_1`
shape — the whole field extraction returns an error (the uncaught
`AttributeError`), producing no table; the record is never silently
skipped. -/
theorem C8_parse_failure_aborts (refs : List String) (r : String)
    (hr : r ∈ refs.take 20) (hm : matchP1 r = none) :
    ∃ e, references_dict refs = Except.error e :=
  refsLoop_error refs 0 r hr hm

/-- Witness for C8: the single malformed reference "junk" (no year) makes
the whole batch fail. -/
theorem C8_parse_failure_aborts_witness :
    ∃ e, references_dict ["junk"] = Except.error e :=
  C8_parse_failure_aborts ["junk"] "junk" (by decide) (by decide)

/-- When every reference still to be processed within the cap parses, the
loop returns exactly the rows of the first `20 - count` references in
order. -/
theorem refsLoop_ok (refs : List String) (count : Nat) (hc : count < 20)
    (h : ∀ r ∈ refs.take (20 - count), ∃ row, processRef r = Except.ok row) :
    ∃ rows, refsLoop count refs = Except.ok rows ∧
      (refs.take (20 - count)).map processRef = rows.map Except.ok := by
  induction refs generalizing count with
  | nil => exact ⟨[], rfl, by simp⟩
  | cons r rest ih =>
    obtain ⟨k, hk⟩ : ∃ k, 20 - count = k + 1 :=
      ⟨20 - count - 1, by omega⟩
    have hrmem : r ∈ (r :: rest).take (20 - count) := by
      rw [hk, List.take_succ_cons]
      exact List.mem_cons_self r _
    obtain ⟨row, hrow⟩ := h r hrmem
    by_cases hcap : count = 19
    · have hk0 : k = 0 := by omega
      refine ⟨[row], ?_, ?_⟩
      · simp [refsLoop, hrow, hcap]
      · rw [hk, hk0, List.take_succ_cons]
        simp [hrow]
    · have hc2 : count + 1 < 20 := by omega
      have hrest : ∀ r2 ∈ rest.take (20 - (count + 1)),
          ∃ row2, processRef r2 = Except.ok row2 := by
        intro r2 hr2
        refine h r2 ?_
        rw [hk, List.take_succ_cons]
        refine List.mem_cons_of_mem r ?_
        have : 20 - (count + 1) = k := by omega
        rw [← this]
        exact hr2
      obtain ⟨rows, hl, hmap⟩ := ih (count + 1) hc2 hrest
      refine ⟨row :: rows, ?_, ?_⟩
      · simp [refsLoop, hrow, hcap, hl]
      · rw [hk, List.take_succ_cons]
        have : 20 - (count + 1) = k := by omega
        rw [this] at hmap
        simp [hrow, hmap]

/-- C9: on well-formed references (every reference among the first 20
parses), the structured table has exactly `min n 20` rows — all `n` when
n ≤ 20, and exactly the records of the first 20 references in their
original order when n > 20, the rest dropped silently. -/
theorem C9_cap_twenty (refs : List String)
    (h : ∀ r ∈ refs.take 20, ∃ row, processRef r = Except.ok row) :
    ∃ rows, references_dict refs = Except.ok rows ∧
      rows.length = min refs.length 20 ∧
      (refs.take 20).map processRef = rows.map Except.ok := by
  obtain ⟨rows, hl, hmap⟩ := refsLoop_ok refs 0 (by norm_num) (by simpa using h)
  refine ⟨rows, hl, ?_, by simpa using hmap⟩
  have hlen := congrArg List.length hmap
  simp only [List.length_map, List.length_take] at hlen
  omega

/-- Witness for C9: 25 copies of the well-formed reference "A. 2020. T."
(the spec's cap scenario, n = 25 > 20). -/
theorem C9_cap_twenty_witness :
    ∃ rows, references_dict (List.replicate 25 "A. 2020. T.") = Except.ok rows ∧
      rows.length = min (List.replicate 25 "A. 2020. T.").length 20 ∧
      ((List.replicate 25 "A. 2020. T.").take 20).map processRef =
        rows.map Except.ok :=
  C9_cap_twenty (List.replicate 25 "A. 2020. T.")
    (fun r hr => by
      have : r = "A. 2020. T." :=
        List.eq_of_mem_replicate (List.take_subset _ _ hr)
      subst this
      exact ⟨⟨"A", "2020", "T", "", ""⟩, rfl⟩)

end AclRefs
